import Mathlib

set_option maxRecDepth 100000

/-
  Verification development for simple-manga-combiner (src/manga-dl.py).

  Shallow embedding conventions:
  * Image bytes are modelled as `List Nat`.
  * A directory listing is an association list from filename to `FData`
    (a regular readable file, a regular file whose read raises, or a
    subdirectory); insertion order models creation order on disk.
  * Python `str` values are Lean `String`; character-level helpers work on
    `List Char` (the code points), matching CPython semantics on the ASCII
    inputs the program manipulates.
  * Fallible steps (a read that raises, a failed page download) are explicit
    in the types; the `try/except` blocks of the source are modelled by the
    corresponding early-exit branches.
-/

/-! ## Character/string helpers mirroring os.path and str methods -/

/-- Bytes of a file, abstract model. -/
abbrev Bytes := List Nat

/-- Characters of the last `c`-separated segment, computed on the reversed
list: stop at the first `c`.  Used (reversed back) for
`os.path.basename` (`c = '/'`), `str.split(c)[-1]`. -/
def revSegC (c : Char) : List Char → List Char
  | [] => []
  | x :: t => if x = c then [] else x :: revSegC c t

/-- On the reversed list: everything after the first `c`, or `none` when `c`
does not occur.  Used for `os.path.dirname` and `os.path.splitext`. -/
def revRestC (c : Char) : List Char → Option (List Char)
  | [] => none
  | x :: t => if x = c then some t else revRestC c t

/-- Python `str.split(c)[-1]`: the part after the last occurrence of `c`
(the whole list when `c` is absent).  `lastSegC '/' l` is
`os.path.basename`. -/
def lastSegC (c : Char) (l : List Char) : List Char :=
  (revSegC c l.reverse).reverse

/-- The part before the last occurrence of `c`, or `none` when absent. -/
def preLastC (c : Char) (l : List Char) : Option (List Char) :=
  match revRestC c l.reverse with
  | none => none
  | some r => some r.reverse

/-- Model of `os.path.dirname`: part before the last `/`, `""` when there is none. -/
def dirnameL (l : List Char) : List Char :=
  (preLastC '/' l).getD []

/-- Model of `os.path.splitext(...)[0]`: drop the extension after the last dot;
a dot-free name, or a name whose only dot is leading, is kept whole. -/
def stemL (l : List Char) : List Char :=
  match preLastC '.' l with
  | none => l
  | some p => if p = [] then l else p

def basenameStr (s : String) : String := String.mk (lastSegC '/' s.toList)

def dirnameStr (s : String) : String := String.mk (dirnameL s.toList)

def stemStr (s : String) : String := String.mk (stemL s.toList)

/-- Test `headMatchEq p l`: `l` starts with `p` (exact characters). -/
def headMatchEq : List Char → List Char → Bool
  | [], _ => true
  | _ :: _, [] => false
  | a :: p, b :: l => a = b && headMatchEq p l

/-- Python `str.startswith`. -/
def startsWithPy (p s : String) : Bool := headMatchEq p.toList s.toList

/-- Python `str.endswith`. -/
def endsWithPy (p s : String) : Bool :=
  headMatchEq p.toList.reverse s.toList.reverse

/-- Python `str.lower` (ASCII range, as used on file paths here). -/
def lowerStr (s : String) : String := String.mk (s.toList.map Char.toLower)

/-- Replace every occurrence of the single character `c` by the list `r`;
this is Python `str.replace` with a one-character needle. -/
def replace1 (c : Char) (r : List Char) : List Char → List Char
  | [] => []
  | x :: t => (if x = c then r else [x]) ++ replace1 c r t

/-- Python `str.title()` restricted to ASCII:  an alphabetic character is
upper-cased when the previous character is not alphabetic, lower-cased
otherwise. -/
def titleChars : Bool → List Char → List Char
  | _, [] => []
  | prevAlpha, c :: t =>
    (if c.isAlpha then (if prevAlpha then c.toLower else c.toUpper) else c)
      :: titleChars c.isAlpha t

def titleStr (s : String) : String := String.mk (titleChars false s.toList)

/-- Python `int(''.join(filter(str.isdigit, l)) or 0)`: the decimal value of the
digits of `l` in order, `0` when there are none. -/
def digitsVal (l : List Char) : Nat :=
  (l.filter Char.isDigit).foldl (fun n c => n * 10 + (c.toNat - 48)) 0

/-- The sort key of `create_cbz_archive` (line 51):
`int(''.join(filter(str.isdigit, os.path.basename(f).split('-')[-1])) or 0)`. -/
def chapterKey (f : String) : Nat :=
  digitsVal (lastSegC '-' (lastSegC '/' f.toList))

/-- Python `f"{n:03d}"` for natural `n`. -/
def pad3 (n : Nat) : String :=
  if n < 10 then "00" ++ toString n
  else if n < 100 then "0" ++ toString n
  else toString n

/-- Page filename assigned by `download_chapter_images` for original
source index `i` (0-based): `f"page_{i+1:03d}.jpg"`. -/
def pageName (i : Nat) : String := "page_" ++ pad3 (i + 1) ++ ".jpg"

/-- Encoding of a text file to bytes (`str.encode('utf-8')`, modelled as
the code-point sequence, injective on the ASCII output produced here). -/
def strBytes (s : String) : Bytes := s.toList.map Char.toNat

/-! ## Stable sorts: Python `list.sort(key=...)` and `sorted(...)` -/

/-- Insert `a` before the first element with a strictly larger key; since it
passes over equal keys, folding `insertByKey` from the left is the stable
sort by `key`, which is what Python `list.sort(key=...)` computes. -/
def insertByKey (key : String → Nat) (a : String) : List String → List String
  | [] => [a]
  | b :: l => if key a < key b then a :: b :: l else b :: insertByKey key a l

/-- Stable sort by a numeric key (Python `list.sort(key=...)`). -/
def sortByKey (key : String → Nat) (l : List String) : List String :=
  l.foldl (fun acc a => insertByKey key a acc) []

/-- Code-point comparison of strings, Python `<` on `str`. -/
def lexLt : List Char → List Char → Bool
  | [], [] => false
  | [], _ :: _ => true
  | _ :: _, [] => false
  | a :: s, b :: t =>
    if a.toNat < b.toNat then true
    else if b.toNat < a.toNat then false
    else lexLt s t

def strLt (a b : String) : Bool := lexLt a.toList b.toList

/-- Insert before the first strictly larger string. -/
def insertStr (a : String) : List String → List String
  | [] => [a]
  | b :: l => if strLt a b then a :: b :: l else b :: insertStr a l

/-- Python `sorted()` on strings (stable, lexicographic by code points). -/
def sortStrs (l : List String) : List String :=
  l.foldl (fun acc a => insertStr a acc) []

/-! ## generate_comic_info_xml (src/manga-dl.py lines 17-44) -/

/-- Line 21: `title.replace('&','&amp;').replace('<','&lt;').replace('>','&gt;')`,
the escaping applied to the manga title used in the Series/Title elements. -/
def sanitizeElem (l : List Char) : List Char :=
  replace1 '>' "&gt;".toList
    (replace1 '<' "&lt;".toList (replace1 '&' "&amp;".toList l))

/-- Line 35: the same chain followed by `.replace('"','&quot;')`, applied to
bookmark titles placed in attribute values. -/
def sanitizeAttr (l : List Char) : List Char :=
  replace1 '"' "&quot;".toList (sanitizeElem l)

def sanitizeElemStr (s : String) : String := String.mk (sanitizeElem s.toList)

def sanitizeAttrStr (s : String) : String := String.mk (sanitizeAttr s.toList)

/-- Line 30: `bookmark_map = {page_index: title for page_index, title in
bookmarks}` — a Python dict, so a later pair with the same index wins.
`bmLookup bs i` is `bookmark_map.get(i)`. -/
def bmLookup (bs : List (Nat × String)) (i : Nat) : Option String :=
  bs.foldl (fun acc p => if p.1 = i then some p.2 else acc) none

/-- Line 31: `first_bookmark_page = bookmarks[0][0] if bookmarks else -1`. -/
def firstBookmarkPage (bs : List (Nat × String)) : Int :=
  match bs with
  | [] => -1
  | p :: _ => (p.1 : Int)

/-- One `<Page .../>` element of the generated document: its 0-based image
index and, when bookmarked, the (escaped label, type) pair. -/
structure PageEntry where
  image : Nat
  bookmark : Option (String × String)
deriving DecidableEq, Repr

/-- The page element emitted for index `i` (lines 33-39). -/
def pageEntry (bs : List (Nat × String)) (i : Nat) : PageEntry :=
  { image := i
    bookmark := (bmLookup bs i).map fun t =>
      (sanitizeAttrStr t,
        if (i : Int) = firstBookmarkPage bs then "FrontCover" else "Story") }

/-- The full page list of the document, one entry per `i in
range(total_page_count)` (line 33). -/
def comicPages (bs : List (Nat × String)) (total : Nat) : List PageEntry :=
  (List.range total).map (pageEntry bs)

/-- Rendering of one page element to its XML text (lines 37 and 39). -/
def renderPage (e : PageEntry) : String :=
  match e.bookmark with
  | some (lbl, ty) =>
      "    <Page Image=\"" ++ toString e.image ++ "\" Bookmark=\"" ++ lbl
        ++ "\" Type=\"" ++ ty ++ "\" />\n"
  | none => "    <Page Image=\"" ++ toString e.image ++ "\" />\n"

/-- The document prefix built by the f-string at lines 23-29, with the
already-sanitized title spliced into the Series and Title elements. -/
def xmlHeader (sanitizedTitle : String) (total : Nat) : String :=
  "<?xml version=\"1.0\" encoding=\"utf-8\"?>\n"
    ++ "<ComicInfo xmlns:xsd=\"http://www.w3.org/2001/XMLSchema\""
    ++ " xmlns:xsi=\"http://www.w3.org/2001/XMLSchema-instance\">\n"
    ++ "  <Series>" ++ sanitizedTitle ++ "</Series>\n"
    ++ "  <Title>" ++ sanitizedTitle ++ "</Title>\n"
    ++ "  <PageCount>" ++ toString total ++ "</PageCount>\n"
    ++ "  <Pages>\n"

/-- Lines 41-43. -/
def xmlFooter : String := "  </Pages>\n</ComicInfo>\n"

/-- Function `generate_comic_info_xml` (lines 17-44): the complete document text.
(The source returns its utf-8 encoding; see `strBytes`.) -/
def generate_comic_info_xml (manga_title : String) (bookmarks : List (Nat × String))
    (total_page_count : Nat) : String :=
  xmlHeader (sanitizeElemStr manga_title) total_page_count
    ++ String.join ((comicPages bookmarks total_page_count).map renderPage)
    ++ xmlFooter

/-- Substring test on strings (used only to state facts about concrete
generated documents). -/
def strHasSub (needle hay : String) : Bool :=
  let p := needle.toList
  let rec go : List Char → Bool
    | [] => headMatchEq p []
    | c :: t => headMatchEq p (c :: t) || go t
  go hay.toList

/-! ## Filesystem model -/

/-- A directory entry on disk: a readable regular file with its bytes, a
regular file whose read raises (`os.path.isfile` is true but `zf.write`
or `read` fails), or a subdirectory (skipped by the `isfile` filters). -/
inductive FData where
  | file (b : Bytes)
  | badFile
  | subdir
deriving DecidableEq, Repr

/-- Model of `os.path.isfile` on a directory entry. -/
def FData.isfile : FData → Bool
  | .file _ => true
  | .badFile => true
  | .subdir => false

/-- A directory: association list filename → entry, in creation order
(`os.listdir` enumeration). -/
abbrev Dir := List (String × FData)

/-- Look a name up in a directory listing (first match). -/
def dirGet : Dir → String → Option FData
  | [], _ => none
  | (m, x) :: t, n => if m = n then some x else dirGet t n

/-- Names in a directory, in creation order (`os.listdir`). -/
def listdirD (d : Dir) : List String := d.map Prod.fst

/-- Number of regular files in a directory — line 57 of the source:
`len(sorted([f for f in os.listdir(folder) if os.path.isfile(...)]))`. -/
def countFiles (d : Dir) : Nat := d.countP (fun e => e.2.isfile)

/-- Write `n` with content `b` into a directory, overwriting an existing
entry of the same name (filesystem write semantics). -/
def dirSetFile : Dir → String → Bytes → Dir
  | [], n, b => [(n, .file b)]
  | (m, x) :: t, n, b =>
    if m = n then (m, .file b) :: t else (m, x) :: dirSetFile t n b

/-- The scratch directory tree: association list dirname → directory,
in creation order. -/
abbrev FS := List (String × Dir)

def fsGet : FS → String → Option Dir
  | [], _ => none
  | (m, d) :: t, n => if m = n then some d else fsGet t n

/-- Write file `n` with bytes `b` under directory `dn`, creating the
directory at the end of the listing when absent. -/
def fsSetFile : FS → String → String → Bytes → FS
  | [], dn, n, b => [(dn, [(n, .file b)])]
  | (m, d) :: t, dn, n, b =>
    if m = dn then (m, dirSetFile d n b) :: t else (m, d) :: fsSetFile t dn n b

/-- Read a single file of the scratch tree: directory lookup then file
lookup. -/
def fsGetFile (fs : FS) (s n : String) : Option FData :=
  (fsGet fs s).bind fun d => dirGet d n

/-- Directory names of the scratch tree, in creation order (the model's
`os.listdir(temp_dir)` restricted to directories). -/
def fsDirs (fs : FS) : List String := fs.map Prod.fst

/-- Content of an archive file: its entries (name, bytes) in write order. -/
abbrev ArchiveContent := List (String × Bytes)

/-- Model of `zf.extractall(path=temp_dir)` over an existing scratch tree: each entry
`d/n` of the archive is written (overwriting) into directory `d`; entries at
the archive root (no `/` in the name, e.g. `ComicInfo.xml`) become loose
files, not directories, and are invisible to the directory enumeration. -/
def extractInto (fs : FS) (entries : ArchiveContent) : FS :=
  entries.foldl
    (fun fs e =>
      let dn := dirnameStr e.1
      if dn = "" then fs else fsSetFile fs dn (basenameStr e.1) e.2)
    fs

/-! ## download_chapter_images (lines 231-249) -/

/-- Outcome of one page source in a chapter listing: an `<img>` tag with an
empty `src` (no task is created for it), a fetch that fails (the file is
absent, only logged), or a successful fetch of the image bytes. -/
inductive FetchOutcome where
  | emptySrc
  | fails
  | ok (b : Bytes)
deriving DecidableEq, Repr

/-- Function `download_chapter_images`: returns `none` when the chapter page request
itself raises (line 248) or the page listing is empty (line 240); otherwise
returns the populated chapter directory — each successfully fetched page is
saved as `page_{i+1:03d}.jpg` for its original 0-based listing index `i`
(line 241), and the directory is returned (line 247) regardless of how many
page fetches failed. -/
def download_chapter_images (requestFails : Bool) (tags : List FetchOutcome) :
    Option Dir :=
  if requestFails then none
  else if tags.isEmpty then none
  else some (tags.enum.filterMap fun p =>
    match p.2 with
    | .ok b => some (pageName p.1, FData.file b)
    | _ => none)

/-! ## create_cbz_archive (lines 46-80) -/

/-- Lines 53-58: one pass over the sorted folder list, accumulating
`(current_page_index, cleaned chapter title)` bookmarks and the running
page index; a folder that is not a directory on disk is skipped. -/
def bookmarksOf (disk : String → Option Dir) (sorted : List String) :
    List (Nat × String) × Nat :=
  sorted.foldl
    (fun acc f =>
      match disk f with
      | none => acc
      | some d =>
        (acc.1 ++ [(acc.2, titleStr (String.mk (replace1 '_' [' ']
            (replace1 '-' [' '] (basenameStr f).toList))))],
          acc.2 + countFiles d))
    ([], 0)

/-- Result of the archive-writing loop: all entries written, or the entries
written up to the point where an exception was raised. -/
inductive WRes where
  | done (entries : ArchiveContent)
  | failed (entries : ArchiveContent)
deriving DecidableEq, Repr

/-- Lines 71-76 for one folder: iterate the lexicographically sorted
directory listing, writing each regular file under
`{basename(folder)}/{image_name}`; a file whose read raises aborts the
whole archive build (the surrounding `try`). -/
def writeDirFiles (base : String) (d : Dir) :
    List String → ArchiveContent → WRes
  | [], acc => .done acc
  | n :: t, acc =>
    match dirGet d n with
    | some (.file b) => writeDirFiles base d t (acc ++ [(base ++ "/" ++ n, b)])
    | some .badFile => .failed acc
    | some .subdir => writeDirFiles base d t acc
    | none => writeDirFiles base d t acc

/-- Lines 70-76 over all folders; `os.listdir` on a folder that is not a
directory raises (this loop, unlike the bookmark pass, has no `isdir`
guard). -/
def writeAll (disk : String → Option Dir) :
    List String → ArchiveContent → WRes
  | [], acc => .done acc
  | f :: t, acc =>
    match disk f with
    | none => .failed acc
    | some d =>
      match writeDirFiles (basenameStr f) d (sortStrs (listdirD d)) acc with
      | .done acc2 => writeAll disk t acc2
      | .failed acc2 => .failed acc2

/-- Function `create_cbz_archive(manga_title, chapter_folders, output_filename)`:
`disk` is the scratch filesystem the folder paths point into, `prev` is the
content of the file currently at the output path (`none` when the output
file does not exist yet).  The returned pair is (the Boolean result, the
content of the output path afterwards).  The function opens the output path
itself for writing (line 68) — there is no temporary file — so on a failure
mid-build the output path is left holding the partial archive. -/
def create_cbz_archive (manga_title : String) (chapter_folders : List String)
    (disk : String → Option Dir) (prev : Option ArchiveContent) :
    Bool × Option ArchiveContent :=
  let sorted := sortByKey chapterKey chapter_folders
  let bm := bookmarksOf disk sorted
  if bm.2 = 0 then (false, prev)
  else
    let xml := generate_comic_info_xml manga_title bm.1 bm.2
    match writeAll disk sorted [("ComicInfo.xml", strBytes xml)] with
    | .done es => (true, some es)
    | .failed es => (false, some es)

/-! ## update_local_cbz (lines 94-160) -/

/-- An entry of the existing archive as seen by `zipfile`: its read either
yields bytes or raises. -/
inductive EState where
  | readable (b : Bytes)
  | unreadable
deriving DecidableEq, Repr

def eLookup : List (String × EState) → String → Option EState
  | [], _ => none
  | (m, x) :: t, n => if m = n then some x else eLookup t n

/-- Line 111: the filtered, lexicographically sorted image entry names. -/
def imageFilesOf (names : List String) : List String :=
  sortStrs (names.filter fun f =>
    !(startsWithPy "__MACOSX" f) && !(endsWithPy "/" f) && f != "ComicInfo.xml")

/-- Is `c` an ASCII whitespace character (model of regex `\s`)? -/
def isWsPy (c : Char) : Bool :=
  c = ' ' || c = '\t' || c = '\n' || c = '\x0d' || c = '\x0c' || c = '\x0b'

/-- Case-insensitive literal prefix match; `pat` is given lowercase. -/
def headMatchCI : List Char → List Char → Option (List Char)
  | [], l => some l
  | _ :: _, [] => none
  | a :: p, c :: l => if c.toLower = a then headMatchCI p l else none

/-- The `\s?(\d+)` tail of the chapter regex: optionally one whitespace,
then a non-empty maximal digit run, whose integer value is returned. -/
def tailNum (l : List Char) : Option Nat :=
  let l2 := match l with
    | c :: t => if isWsPy c then t else l
    | [] => l
  match l2.takeWhile Char.isDigit with
  | [] => none
  | ds => some (ds.foldl (fun n c => n * 10 + (c.toNat - 48)) 0)

/-- One attempt of `([cv]|ch|chapter)\s?(\d+)` at a fixed position: the
regex alternation tries `c`, `v`, `ch`, `chapter` in that order and the
first alternative after which `\s?(\d+)` succeeds wins. -/
def altNum (l : List Char) : Option Nat :=
  match headMatchCI ['c'] l with
  | some r =>
    match tailNum r with
    | some k => some k
    | none =>
      match headMatchCI ['c', 'h'] l with
      | some r2 =>
        match tailNum r2 with
        | some k => some k
        | none => (headMatchCI "chapter".toList l).bind tailNum
      | none => (headMatchCI "chapter".toList l).bind tailNum
  | none =>
    match headMatchCI ['v'] l with
    | some r => tailNum r
    | none => none

/-- Model of `re.search` of the chapter pattern (line 117): leftmost position at
which the pattern matches; returns `int(match.group(2))`. -/
def regexSearch : List Char → Option Nat
  | [] => none
  | c :: t =>
    match altNum (c :: t) with
    | some k => some k
    | none => regexSearch t

/-- Python `chapters.setdefault(k, []).append(v)` on an insertion-ordered dict. -/
def pySetdefaultAppend (m : List (String × List String)) (k v : String) :
    List (String × List String) :=
  match m with
  | [] => [(k, [v])]
  | (m1, l) :: t =>
    if m1 = k then (m1, l ++ [v]) :: t else (m1, l) :: pySetdefaultAppend t k v

/-- Lines 115-128: group the image files into chapters.  When every entry
is a bare filename (one parent directory, the empty one), infer chapter
numbers with the regex and key the groups as `Chapter %03d`; if this yields
only the single degenerate group `Chapter 000`, inference fails (`none`).
Otherwise group by parent directory. -/
def chaptersOfUpdate (imageFiles : List String) :
    Option (List (String × List String)) :=
  if imageFiles.all (fun f => dirnameStr f = "") then
    let m := imageFiles.foldl
      (fun m f =>
        let num := (regexSearch (basenameStr f).toList).getD 0
        pySetdefaultAppend m ("Chapter " ++ pad3 num) f)
      []
    if m.map Prod.fst = ["Chapter 000"] then none else some m
  else
    some (imageFiles.foldl (fun m f => pySetdefaultAppend m (dirnameStr f) f) [])

/-- Lines 130-138: bookmarks from the lexicographically sorted chapter
keys, with the running page index; returns (bookmarks, total_images). -/
def updBookmarks (m : List (String × List String)) :
    List (Nat × String) × Nat :=
  (sortStrs (m.map Prod.fst)).foldl
    (fun acc k =>
      let n := ((eChapLen m k))
      (acc.1 ++ [(acc.2, titleStr (String.mk (replace1 '_' [' ']
          (replace1 '-' [' '] k.toList))))], acc.2 + n))
    ([], 0)
where
  eChapLen (m : List (String × List String)) (k : String) : Nat :=
    match m.find? (fun e => e.1 = k) with
    | some e => e.2.length
    | none => 0

/-- Lines 146-152: the temporary archive's entries.  `ComicInfo.xml` is
written first, then every grouped image is copied from the original archive
under `{chapter_folder}/{basename(original)}` — iterating `chapters.items()`
in dict insertion order.  A read that raises aborts the build (`none`). -/
def buildNewEntries (orig : List (String × EState))
    (m : List (String × List String)) (xml : String) :
    Option (List (String × EState)) :=
  (m.foldl
    (fun acc e =>
      match acc with
      | none => none
      | some es =>
        e.2.foldl
          (fun acc2 p =>
            match acc2 with
            | none => none
            | some es2 =>
              match eLookup orig p with
              | some (.readable b) =>
                some (es2 ++ [(e.1 ++ "/" ++ basenameStr p, EState.readable b)])
              | _ => none)
          (some es))
    (some [("ComicInfo.xml", EState.readable (strBytes xml))]))

/-- The observable result of `update_local_cbz`. -/
inductive UOutcome where
  | skipNonCbz
  | errNotZip
  | skipHasInfo
  | skipNoImages
  | skipInferFailed
  | skipZeroImages
  | errBuild
  | success
deriving DecidableEq, Repr

/-- Final state of `update_local_cbz`: the returned message class, the
content of the `.cbz` file afterwards, whether the `.tmp` file was ever
created, and whether it still exists at the end. -/
structure UpdateResult where
  outcome : UOutcome
  cbz : List (String × EState)
  tmpCreated : Bool
  tmpFinal : Bool
deriving DecidableEq, Repr

/-- Function `update_local_cbz(cbz_path, custom_title, force_overwrite)`:
`isZip` is `zipfile.is_zipfile(cbz_path)`, `entries` the original archive
listing with per-entry readability.  Mirrors lines 94-160: the temporary
archive is built at `cbz_path + ".tmp"` and moved over the original only
after a complete build; any exception removes the temporary file and leaves
the original untouched. -/
def update_local_cbz (cbz_path : String) (isZip : Bool)
    (entries : List (String × EState)) (custom_title : Option String)
    (force_overwrite : Bool) : UpdateResult :=
  if !(endsWithPy ".cbz" (lowerStr cbz_path)) then
    ⟨.skipNonCbz, entries, false, false⟩
  else if !isZip then ⟨.errNotZip, entries, false, false⟩
  else
    let names := entries.map Prod.fst
    if names.contains "ComicInfo.xml" && !force_overwrite then
      ⟨.skipHasInfo, entries, false, false⟩
    else
      let imageFiles := imageFilesOf names
      if imageFiles.isEmpty then ⟨.skipNoImages, entries, false, false⟩
      else
        match chaptersOfUpdate imageFiles with
        | none => ⟨.skipInferFailed, entries, false, false⟩
        | some m =>
          let bm := updBookmarks m
          if bm.2 = 0 then ⟨.skipZeroImages, entries, false, false⟩
          else
            let manga_title := custom_title.getD
              (titleStr (String.mk (replace1 '-' [' ']
                (stemL (basenameStr cbz_path).toList))))
            let xml := generate_comic_info_xml manga_title bm.1 bm.2
            match buildNewEntries entries m xml with
            | none => ⟨.errBuild, entries, true, false⟩
            | some nl => ⟨.success, nl, true, false⟩

/-! ## sync_cbz_with_source, reconciliation portion (lines 183-204) -/

/-- The reconciliation part of `sync_cbz_with_source` after the chapter
diff: the freshly fetched chapter directories (`downloaded`, in completion
order, each keyed by its URL slug) already live in the scratch directory;
then the existing archive is extracted over the same scratch directory
(line 197, overwriting same-named files); `existing_chapter_folders` is the
directory enumeration of the scratch tree (line 198, modelled in creation
order); and `create_cbz_archive` is invoked on
`existing_chapter_folders + downloaded_chapter_paths` with the original
`.cbz` path as the output file (lines 199-201). -/
def sync_cbz_reconcile (cbz_path : String) (zipEntries : ArchiveContent)
    (downloaded : FS) : Bool × Option ArchiveContent :=
  let fs1 := extractInto downloaded zipEntries
  let existing_chapter_folders := fsDirs fs1
  let all_chapter_folders := existing_chapter_folders ++ fsDirs downloaded
  let manga_title := stemStr (basenameStr cbz_path)
  create_cbz_archive manga_title all_chapter_folders (fsGet fs1)
    (some zipEntries)

/-! ## Properties of the escaping chains (C6) -/

/-- Per-character rendering realised by the element-content chain of
line 21 (`&`, `<`, `>` become entities, everything else is kept). -/
def escElemChar (c : Char) : List Char :=
  if c = '&' then "&amp;".toList
  else if c = '<' then "&lt;".toList
  else if c = '>' then "&gt;".toList
  else [c]

/-- Per-character rendering realised by the attribute chain of line 35
(additionally `"` becomes `&quot;`). -/
def escAttrChar (c : Char) : List Char :=
  if c = '&' then "&amp;".toList
  else if c = '<' then "&lt;".toList
  else if c = '>' then "&gt;".toList
  else if c = '"' then "&quot;".toList
  else [c]

/-- Expand every character through `f`. -/
def charExpand (f : Char → List Char) : List Char → List Char
  | [] => []
  | c :: t => f c ++ charExpand f t

/-- The successfully fetched pages of a chapter, with their original
0-based listing indices (the indices that name the files on disk). -/
def okIndexed (tags : List FetchOutcome) : List (Nat × Bytes) :=
  tags.enum.filterMap fun p =>
    match p.2 with
    | FetchOutcome.ok b => some (p.1, b)
    | _ => none

/-- Running prefix sums: `prefixSums k [c1, c2, ...] = [k, k+c1, k+c1+c2, ...]`
(one start offset per chapter). -/
def prefixSums (start : Nat) : List Nat → List Nat
  | [] => []
  | c :: t => start :: prefixSums (start + c) t

/-- Total number of page files over a folder list: the page count of the
combined chapter set fed to `create_cbz_archive` (a missing directory
contributes nothing, matching the `isdir` guard of line 54). -/
def totalPages (disk : String → Option Dir) (folders : List String) : Nat :=
  (folders.map (fun f =>
    match disk f with
    | none => 0
    | some d => countFiles d)).sum

lemma replace1_append (c : Char) (r l1 l2 : List Char) :
    replace1 c r (l1 ++ l2) = replace1 c r l1 ++ replace1 c r l2 := by
  induction l1 with
  | nil => rfl
  | cons x t ih => simp [replace1, ih, List.append_assoc]

lemma sanitizeElem_cons (c : Char) (t : List Char) :
    sanitizeElem (c :: t) = escElemChar c ++ sanitizeElem t := by
  have h1 : replace1 '&' "&amp;".toList (c :: t)
      = (if c = '&' then "&amp;".toList else [c]) ++ replace1 '&' "&amp;".toList t := by
    simp [replace1]
  by_cases h : c = '&'
  · subst h
    simp only [sanitizeElem, h1, if_pos rfl, replace1_append, escElemChar]
    rfl
  · by_cases h2 : c = '<'
    · subst h2
      simp only [sanitizeElem, h1, if_neg h, replace1_append, escElemChar]
      simp [replace1]
    · by_cases h3 : c = '>'
      · subst h3
        simp only [sanitizeElem, h1, if_neg h, replace1_append, escElemChar]
        simp [replace1]
      · simp only [sanitizeElem, h1, if_neg h, replace1_append, escElemChar,
          if_neg h2, if_neg h3]
        simp [replace1, h, h2, h3]

lemma sanitizeElem_expand (l : List Char) :
    sanitizeElem l = charExpand escElemChar l := by
  induction l with
  | nil => rfl
  | cons c t ih => rw [sanitizeElem_cons, ih]; rfl

lemma sanitizeAttr_expand (l : List Char) :
    sanitizeAttr l = charExpand escAttrChar l := by
  induction l with
  | nil => rfl
  | cons c t ih =>
    show replace1 '"' "&quot;".toList (sanitizeElem (c :: t)) = _
    rw [sanitizeElem_cons, replace1_append]
    have hrest : replace1 '"' "&quot;".toList (sanitizeElem t)
        = charExpand escAttrChar t := ih
    rw [hrest]
    by_cases h : c = '&'
    · subst h; rfl
    · by_cases h2 : c = '<'
      · subst h2; rfl
      · by_cases h3 : c = '>'
        · subst h3; rfl
        · by_cases h4 : c = '"'
          · subst h4; rfl
          · simp [escElemChar, escAttrChar, replace1, h, h2, h3, h4, charExpand]

/-- No raw markup-significant character in the element-content escaping. -/
lemma sanitizeElem_all (l : List Char) :
    (sanitizeElem l).all (fun x => x != '<' && x != '>') = true := by
  rw [sanitizeElem_expand]
  induction l with
  | nil => rfl
  | cons c t ih =>
    show (escElemChar c ++ charExpand escElemChar t).all _ = true
    rw [List.all_append, ih, Bool.and_true]
    by_cases h : c = '&'
    · subst h; rfl
    · by_cases h2 : c = '<'
      · subst h2; rfl
      · by_cases h3 : c = '>'
        · subst h3; rfl
        · simp [escElemChar, h, h2, h3]

lemma sanitizeAttr_all (l : List Char) :
    (sanitizeAttr l).all (fun x => x != '<' && x != '>' && x != '"') = true := by
  rw [sanitizeAttr_expand]
  induction l with
  | nil => rfl
  | cons c t ih =>
    show (escAttrChar c ++ charExpand escAttrChar t).all _ = true
    rw [List.all_append, ih, Bool.and_true]
    by_cases h : c = '&'
    · subst h; rfl
    · by_cases h2 : c = '<'
      · subst h2; rfl
      · by_cases h3 : c = '>'
        · subst h3; rfl
        · by_cases h4 : c = '"'
          · subst h4; rfl
          · simp [escAttrChar, h, h2, h3, h4]

/-- The element-content escaping keeps every double quote verbatim. -/
lemma sanitizeElem_count_quote (l : List Char) :
    (sanitizeElem l).count '"' = l.count '"' := by
  rw [sanitizeElem_expand]
  induction l with
  | nil => rfl
  | cons c t ih =>
    show (escElemChar c ++ charExpand escElemChar t).count '"' = _
    rw [List.count_append, ih, List.count_cons]
    by_cases h : c = '&'
    · subst h; simp [escElemChar]
    · by_cases h2 : c = '<'
      · subst h2; simp [escElemChar]
      · by_cases h3 : c = '>'
        · subst h3; simp [escElemChar]
        · simp only [escElemChar, if_neg h, if_neg h2, if_neg h3,
            List.count_cons, List.count_nil]
          omega

/-- C6 counterexample: for the manga title `A"B` the generated metadata
document contains the raw, unescaped double quote inside the `<Series>`
title element (and likewise `<Title>`): the claim that `&`, `<`, `>`, `"`
appear only in XML-escaped form in every title field is false — line 21 of
the source does not escape `"` for the element-content title fields. -/
theorem C6_counterexample_raw_quote_in_series :
    strHasSub "<Series>A\"B</Series>"
      (generate_comic_info_xml "A\"B" [(0, "X")] 1) = true ∧
    (sanitizeElemStr "A\"B").toList.count '"' = 1 := by
  constructor
  · rfl
  · rfl

/-- C6 (amended): the generator escapes `&`, `<`, `>` in every title field
(each character of a title is rendered through its entity map, so no raw
`<` or `>` survives), and escapes `"` only in the bookmark attribute
values (line 35); in the Series/Title element content (line 21) every `"`
of the title is kept verbatim. -/
theorem C6_escaping_scope (t : List Char) :
    sanitizeElem t = charExpand escElemChar t ∧
    sanitizeAttr t = charExpand escAttrChar t ∧
    (sanitizeElem t).all (fun x => x != '<' && x != '>') = true ∧
    (sanitizeAttr t).all (fun x => x != '<' && x != '>' && x != '"') = true ∧
    (sanitizeElem t).count '"' = t.count '"' :=
  ⟨sanitizeElem_expand t, sanitizeAttr_expand t, sanitizeElem_all t,
    sanitizeAttr_all t, sanitizeElem_count_quote t⟩

/-! ## Sorting lemmas -/

lemma insertByKey_perm (key : String → Nat) (a : String) (l : List String) :
    (insertByKey key a l).Perm (a :: l) := by
  induction l with
  | nil => exact List.Perm.refl _
  | cons b l ih =>
    by_cases h : key a < key b
    · simp [insertByKey, h]
    · simp only [insertByKey, if_neg h]
      exact (ih.cons b).trans (List.Perm.swap a b l)

lemma sortByKey_go_perm (key : String → Nat) :
    ∀ (l acc : List String),
      (l.foldl (fun acc a => insertByKey key a acc) acc).Perm (acc ++ l) := by
  intro l
  induction l with
  | nil => intro acc; simp
  | cons a l ih =>
    intro acc
    have h1 := ih (insertByKey key a acc)
    have h2 : (insertByKey key a acc ++ l).Perm (acc ++ a :: l) := by
      have := (insertByKey_perm key a acc).append_right l
      exact this.trans (List.perm_middle.symm)
    exact h1.trans h2

lemma sortByKey_perm (key : String → Nat) (l : List String) :
    (sortByKey key l).Perm l := by
  have := sortByKey_go_perm key l []
  simpa [sortByKey] using this

lemma insertByKey_pairwise (key : String → Nat) (a : String) (l : List String)
    (h : l.Pairwise (fun x y => key x ≤ key y)) :
    (insertByKey key a l).Pairwise (fun x y => key x ≤ key y) := by
  induction l with
  | nil => simp [insertByKey]
  | cons b l ih =>
    rw [List.pairwise_cons] at h
    by_cases hk : key a < key b
    · simp only [insertByKey, if_pos hk, List.pairwise_cons]
      refine ⟨?_, h.1, h.2⟩
      intro x hx
      rcases List.mem_cons.mp hx with rfl | hx
      · omega
      · have := h.1 x hx; omega
    · simp only [insertByKey, if_neg hk, List.pairwise_cons]
      refine ⟨?_, ih h.2⟩
      intro x hx
      have hx2 : x ∈ a :: l := ((insertByKey_perm key a l).mem_iff).mp hx
      rcases List.mem_cons.mp hx2 with rfl | hx2
      · omega
      · exact h.1 x hx2

lemma sortByKey_go_pairwise (key : String → Nat) :
    ∀ (l acc : List String),
      acc.Pairwise (fun x y => key x ≤ key y) →
      (l.foldl (fun acc a => insertByKey key a acc) acc).Pairwise
        (fun x y => key x ≤ key y) := by
  intro l
  induction l with
  | nil => intro acc h; simpa using h
  | cons a l ih =>
    intro acc h
    exact ih (insertByKey key a acc) (insertByKey_pairwise key a acc h)

lemma sortByKey_pairwise (key : String → Nat) (l : List String) :
    (sortByKey key l).Pairwise (fun x y => key x ≤ key y) :=
  sortByKey_go_pairwise key l [] (List.Pairwise.nil)

/-- Two sorted lists that are permutations of each other and whose elements
are determined by their keys are equal. -/
lemma sortedKey_perm_eq (key : String → Nat) :
    ∀ (l1 l2 : List String),
      l1.Pairwise (fun x y => key x ≤ key y) →
      l2.Pairwise (fun x y => key x ≤ key y) →
      l1.Perm l2 →
      (∀ a ∈ l1, ∀ b ∈ l1, key a = key b → a = b) →
      l1 = l2 := by
  intro l1
  induction l1 with
  | nil =>
    intro l2 _ _ hp _
    exact (hp.symm.eq_nil).symm
  | cons a t1 ih =>
    intro l2 h1 h2 hp hinj
    match l2 with
    | [] => exact absurd hp.eq_nil (by simp)
    | b :: t2 =>
      rw [List.pairwise_cons] at h1 h2
      have hab : a = b := by
        have hbmem : b ∈ a :: t1 := hp.mem_iff.mpr (by simp)
        have hamem : a ∈ b :: t2 := hp.mem_iff.mp (by simp)
        have hk1 : key a ≤ key b := by
          rcases List.mem_cons.mp hbmem with hb | hb
          · rw [hb]
          · exact h1.1 b hb
        have hk2 : key b ≤ key a := by
          rcases List.mem_cons.mp hamem with ha | ha
          · rw [ha]
          · exact h2.1 a ha
        exact hinj a (by simp) b hbmem (by omega)
      subst hab
      have ht : t1.Perm t2 := hp.cons_inv
      have := ih t2 h1.2 h2.2 ht
        (fun x hx y hy hk => hinj x (by simp [hx]) y (by simp [hy]) hk)
      rw [this]

lemma insertStr_perm (a : String) (l : List String) :
    (insertStr a l).Perm (a :: l) := by
  induction l with
  | nil => exact List.Perm.refl _
  | cons b l ih =>
    by_cases h : strLt a b
    · simp [insertStr, h]
    · simp only [insertStr, if_neg h]
      exact (ih.cons b).trans (List.Perm.swap a b l)

lemma sortStrs_go_perm :
    ∀ (l acc : List String),
      (l.foldl (fun acc a => insertStr a acc) acc).Perm (acc ++ l) := by
  intro l
  induction l with
  | nil => intro acc; simp
  | cons a l ih =>
    intro acc
    have h1 := ih (insertStr a acc)
    have h2 : (insertStr a acc ++ l).Perm (acc ++ a :: l) :=
      ((insertStr_perm a acc).append_right l).trans (List.perm_middle.symm)
    exact h1.trans h2

lemma sortStrs_perm (l : List String) : (sortStrs l).Perm l := by
  have := sortStrs_go_perm l []
  simpa [sortStrs] using this

lemma mem_sortStrs {n : String} {l : List String} (h : n ∈ l) :
    n ∈ sortStrs l := (sortStrs_perm l).mem_iff.mpr h

/-! ## C9: completion order vs archive bytes -/

/-- C9 counterexample: two fetched chapter directories whose names have the
same numeric sort key (`chapter-05` and `chapter-5` both key to `5`): the
stable sort of line 51 keeps them in collection order, so the two possible
completion orders of the parallel fetches produce different archives —
the archive bytes are NOT identical for every permutation. -/
theorem C9_counterexample_equal_keys :
    create_cbz_archive "T" ["chapter-05", "chapter-5"]
      (fsGet [("chapter-05", [("p.jpg", FData.file [1])]),
              ("chapter-5", [("q.jpg", FData.file [2])])]) none
    ≠ create_cbz_archive "T" ["chapter-5", "chapter-05"]
      (fsGet [("chapter-05", [("p.jpg", FData.file [1])]),
              ("chapter-5", [("q.jpg", FData.file [2])])]) none := by
  decide

/-- C9 (amended): the archive produced by the reconciliation
(`all_chapter_folders = existing_chapter_folders + downloaded_chapter_paths`,
line 199, then `create_cbz_archive`, line 201) is invariant under the
collection order of the concurrently fetched chapters PROVIDED no two
distinct folder names share the numeric sort key of line 51; with a key
collision (e.g. `chapter-5` vs `chapter-05`) the stable sort preserves
completion order and the output depends on it. -/
theorem C9_order_invariance (title : String) (disk : String → Option Dir)
    (prev : Option ArchiveContent) (existing fetched fetched2 : List String)
    (hperm : fetched2.Perm fetched)
    (hinj : ∀ a ∈ existing ++ fetched, ∀ b ∈ existing ++ fetched,
      chapterKey a = chapterKey b → a = b) :
    create_cbz_archive title (existing ++ fetched2) disk prev
      = create_cbz_archive title (existing ++ fetched) disk prev := by
  have hp : (existing ++ fetched2).Perm (existing ++ fetched) :=
    hperm.append_left existing
  have hsorted : sortByKey chapterKey (existing ++ fetched2)
      = sortByKey chapterKey (existing ++ fetched) := by
    apply sortedKey_perm_eq chapterKey
    · exact sortByKey_pairwise chapterKey _
    · exact sortByKey_pairwise chapterKey _
    · exact ((sortByKey_perm chapterKey _).trans hp).trans
        (sortByKey_perm chapterKey _).symm
    · intro a ha b hb hk
      have ha2 : a ∈ existing ++ fetched :=
        hp.mem_iff.mp ((sortByKey_perm chapterKey _).mem_iff.mp ha)
      have hb2 : b ∈ existing ++ fetched :=
        hp.mem_iff.mp ((sortByKey_perm chapterKey _).mem_iff.mp hb)
      exact hinj a ha2 b hb2 hk
  simp only [create_cbz_archive]
  rw [hsorted]

/-- Witness for `C9_order_invariance` at a concrete input with distinct
keys (2 and 10). -/
theorem C9_order_invariance_witness :
    create_cbz_archive "T" ([] ++ ["x/chapter-10", "x/chapter-2"])
      (fsGet [("x/chapter-2", [("p.jpg", FData.file [1])]),
              ("x/chapter-10", [("q.jpg", FData.file [2])])]) none
    = create_cbz_archive "T" ([] ++ ["x/chapter-2", "x/chapter-10"])
      (fsGet [("x/chapter-2", [("p.jpg", FData.file [1])]),
              ("x/chapter-10", [("q.jpg", FData.file [2])])]) none :=
  C9_order_invariance "T" _ none [] ["x/chapter-2", "x/chapter-10"]
    ["x/chapter-10", "x/chapter-2"] (by decide) (by decide)

/-! ## C4: chapter ordering -/

/-- C4 counterexample: `update_local_cbz` orders chapter keys with plain
`sorted()` (line 131), which is lexicographic — for the parent-directory
slugs `chapter-2` and `chapter-10` the resulting bookmark order puts
`Chapter 10` first (it even becomes the FrontCover chapter), contradicting
the claimed natural order in which `chapter-2` precedes `chapter-10`. -/
theorem C4_counterexample_lexicographic_update :
    (chaptersOfUpdate (imageFilesOf ["chapter-2/a.jpg", "chapter-10/b.jpg"])).map
        (fun m => (updBookmarks m).1) = some [(0, "Chapter 10"), (1, "Chapter 2")]
    ∧ (update_local_cbz "m.cbz" true
        [("chapter-2/a.jpg", .readable [1]), ("chapter-10/b.jpg", .readable [2])]
        none false).outcome = .success
    ∧ strHasSub "Bookmark=\"Chapter 10\" Type=\"FrontCover\""
        (generate_comic_info_xml "M" [(0, "Chapter 10"), (1, "Chapter 2")] 2)
      = true := by
  refine ⟨by decide, by decide, ?_⟩
  rfl

/-- C4 (amended): the two functions use different orders, neither a full
natural sort.  `create_cbz_archive` sorts by the integer value of the
digits of the last hyphen-separated component of the basename (line 51) —
under it `chapter-2` precedes `chapter-10` and `Chapter 002` precedes
`Chapter 010` — and the sort is by that key alone (stable, keys
non-decreasing).  `update_local_cbz` sorts the chapter keys
lexicographically (line 131): zero-padded `Chapter 002` still precedes
`Chapter 010`, but `chapter-10` precedes `chapter-2`. -/
theorem C4_ordering_by_function :
    sortByKey chapterKey ["x/chapter-10", "x/chapter-2"]
      = ["x/chapter-2", "x/chapter-10"]
    ∧ sortByKey chapterKey ["x/Chapter 010", "x/Chapter 002"]
      = ["x/Chapter 002", "x/Chapter 010"]
    ∧ sortStrs ["Chapter 010", "Chapter 002"] = ["Chapter 002", "Chapter 010"]
    ∧ sortStrs ["chapter-2", "chapter-10"] = ["chapter-10", "chapter-2"]
    ∧ (∀ l : List String, (sortByKey chapterKey l).Pairwise
        (fun a b => chapterKey a ≤ chapterKey b))
    ∧ (∀ l : List String, (sortByKey chapterKey l).Perm l) :=
  ⟨by decide, by decide, by decide, by decide,
    fun l => sortByKey_pairwise chapterKey l,
    fun l => sortByKey_perm chapterKey l⟩

/-! ## C7: page list of the metadata generator -/

lemma bmLookup_go_not_mem (i : Nat) :
    ∀ (bs : List (Nat × String)) (init : Option String),
      i ∉ bs.map Prod.fst →
      bs.foldl (fun acc p => if p.1 = i then some p.2 else acc) init = init := by
  intro bs
  induction bs with
  | nil => intro init _; rfl
  | cons p r ih =>
    intro init hmem
    have hne : p.1 ≠ i := fun h => hmem (by simp [h])
    have : i ∉ r.map Prod.fst := fun h => hmem (by simp [h])
    simp only [List.foldl_cons, if_neg hne]
    exact ih init this

lemma bmLookup_not_mem {bs : List (Nat × String)} {i : Nat}
    (h : i ∉ bs.map Prod.fst) : bmLookup bs i = none :=
  bmLookup_go_not_mem i bs none h

lemma bmLookup_go_mem (i : Nat) (t : String) :
    ∀ (bs : List (Nat × String)) (init : Option String),
      (bs.map Prod.fst).Nodup → (i, t) ∈ bs →
      bs.foldl (fun acc p => if p.1 = i then some p.2 else acc) init = some t := by
  intro bs
  induction bs with
  | nil => intro init _ h; exact absurd h (by simp)
  | cons p r ih =>
    intro init hnodup hmem
    rw [List.map_cons, List.nodup_cons] at hnodup
    rcases List.mem_cons.mp hmem with rfl | hmem2
    · simp only [List.foldl_cons, if_pos rfl]
      exact bmLookup_go_not_mem i r (some t) hnodup.1
    · have hik : i ∈ r.map Prod.fst :=
        List.mem_map.mpr ⟨(i, t), hmem2, rfl⟩
      have hne : p.1 ≠ i := fun h => hnodup.1 (h ▸ hik)
      simp only [List.foldl_cons, if_neg hne]
      exact ih init hnodup.2 hmem2

lemma bmLookup_mem {bs : List (Nat × String)} {i : Nat} {t : String}
    (hnodup : (bs.map Prod.fst).Nodup) (h : (i, t) ∈ bs) :
    bmLookup bs i = some t :=
  bmLookup_go_mem i t bs none hnodup h

/-- C7: for every bookmark list and total page count, the generator emits
exactly `total_page_count` page entries carrying the image indices
`0 .. total_page_count-1` in order; provided the chapter-start indices are
distinct and in range (as they are when computed as running page offsets of
non-empty chapters), each chapter-start entry carries that chapter's
escaped title, typed `FrontCover` exactly when it is the first listed
chapter's start and `Story` otherwise; all other entries carry no label. -/
theorem C7_metadata_page_list (bm : List (Nat × String)) (total : Nat) :
    ((comicPages bm total).map PageEntry.image = List.range total)
    ∧ (comicPages bm total).length = total
    ∧ ((bm.map Prod.fst).Nodup →
        ∀ p ∈ bm, p.1 < total →
          ∀ e ∈ comicPages bm total, e.image = p.1 →
            e.bookmark = some (sanitizeAttrStr p.2,
              if bm.head?.map Prod.fst = some p.1 then "FrontCover" else "Story"))
    ∧ (∀ e ∈ comicPages bm total, e.image ∉ bm.map Prod.fst →
        e.bookmark = none) := by
  refine ⟨?_, ?_, ?_, ?_⟩
  · show ((List.range total).map (pageEntry bm)).map PageEntry.image = List.range total
    rw [List.map_map]
    have hid : (PageEntry.image ∘ pageEntry bm) = id := funext fun i => rfl
    rw [hid]
    exact List.map_id _
  · simp [comicPages]
  · intro hnodup p hp hlt e he heq
    rcases List.mem_map.mp he with ⟨i, _, rfl⟩
    have hi : i = p.1 := heq
    subst hi
    show ((bmLookup bm p.1).map _) = _
    rw [bmLookup_mem hnodup hp]
    simp only [Option.map_some']
    have hiff : ((p.1 : Int) = firstBookmarkPage bm)
        ↔ (bm.head?.map Prod.fst = some p.1) := by
      cases bm with
      | nil => exact absurd hp (by simp)
      | cons q r =>
        simp [firstBookmarkPage]
        omega
    rw [if_congr hiff rfl rfl]
  · intro e he hnot
    rcases List.mem_map.mp he with ⟨i, _, rfl⟩
    have hnot2 : i ∉ bm.map Prod.fst := hnot
    show ((bmLookup bm i).map _) = none
    rw [bmLookup_not_mem hnot2]
    rfl

/-- Witness for `C7_metadata_page_list` at `bm = [(0,"A"),(2,"B")]`,
`total = 3`. -/
theorem C7_metadata_page_list_witness :
    ((comicPages [(0, "A"), (2, "B")] 3).map PageEntry.image = List.range 3)
    ∧ (pageEntry [(0, "A"), (2, "B")] 2).bookmark
        = some (sanitizeAttrStr "B",
            if ([(0, "A"), (2, "B")] : List (Nat × String)).head?.map Prod.fst
                = some 2 then "FrontCover" else "Story")
    ∧ (pageEntry [(0, "A"), (2, "B")] 1).bookmark = none :=
  ⟨(C7_metadata_page_list [(0, "A"), (2, "B")] 3).1,
    (C7_metadata_page_list [(0, "A"), (2, "B")] 3).2.2.1 (by decide)
      (2, "B") (by decide) (by decide) _ (by decide) rfl,
    (C7_metadata_page_list [(0, "A"), (2, "B")] 3).2.2.2 _ (by decide)
      (by decide)⟩

/-! ## C8: zero-page refusal -/

lemma bookmarksOf_go_total (disk : String → Option Dir) :
    ∀ (l : List String) (acc : List (Nat × String) × Nat),
      (l.foldl
        (fun acc f =>
          match disk f with
          | none => acc
          | some d =>
            (acc.1 ++ [(acc.2, titleStr (String.mk (replace1 '_' [' ']
                (replace1 '-' [' '] (basenameStr f).toList))))],
              acc.2 + countFiles d))
        acc).2 = acc.2 + totalPages disk l := by
  intro l
  induction l with
  | nil => intro acc; simp [totalPages]
  | cons f t ih =>
    intro acc
    rw [List.foldl_cons]
    cases hdisk : disk f with
    | none =>
      simp only [hdisk]
      rw [ih acc]
      simp [totalPages, hdisk]
    | some d =>
      simp only [hdisk]
      rw [ih]
      simp only [totalPages, List.map_cons, List.sum_cons, hdisk]
      omega

lemma bookmarksOf_total (disk : String → Option Dir) (l : List String) :
    (bookmarksOf disk l).2 = totalPages disk l := by
  have := bookmarksOf_go_total disk l ([], 0)
  simpa [bookmarksOf] using this

lemma totalPages_perm (disk : String → Option Dir) {l1 l2 : List String}
    (h : l1.Perm l2) : totalPages disk l1 = totalPages disk l2 :=
  List.Perm.sum_eq (h.map _)

/-- C8: a reconciliation whose combined chapter set holds zero page files
is refused — `create_cbz_archive` returns `False` at line 63 before any
archive is opened for writing, so the file at the output path (`prev`) is
neither created nor modified. -/
theorem C8_zero_pages_refused (title : String) (folders : List String)
    (disk : String → Option Dir) (prev : Option ArchiveContent)
    (h : totalPages disk folders = 0) :
    create_cbz_archive title folders disk prev = (false, prev) := by
  have h2 : (bookmarksOf disk (sortByKey chapterKey folders)).2 = 0 := by
    rw [bookmarksOf_total]
    rw [totalPages_perm disk (sortByKey_perm chapterKey folders)]
    exact h
  simp [create_cbz_archive, h2]

/-- Witness for `C8_zero_pages_refused`: an existing (empty) chapter set
and an output file that is left exactly as it was. -/
theorem C8_zero_pages_refused_witness :
    create_cbz_archive "T" ["ch-1"] (fsGet [("ch-1", [])])
      (some [("orig", [7])]) = (false, some [("orig", [7])]) :=
  C8_zero_pages_refused "T" ["ch-1"] (fsGet [("ch-1", [])])
    (some [("orig", [7])]) (by decide)


/-! ## C10: metadata update skips archives that already carry metadata -/

/-- C10: for a valid `.cbz` archive that already contains a `ComicInfo.xml`
entry, `update_local_cbz` without the force flag returns the skip result
of line 109 while the archive is only open for reading: the file content
is untouched and the `.tmp` temporary file is never created. -/
theorem C10_skip_existing_metadata (cbz_path : String)
    (entries : List (String × EState)) (custom_title : Option String)
    (hext : endsWithPy ".cbz" (lowerStr cbz_path) = true)
    (hinfo : (entries.map Prod.fst).contains "ComicInfo.xml" = true) :
    update_local_cbz cbz_path true entries custom_title false
      = ⟨.skipHasInfo, entries, false, false⟩ := by
  unfold update_local_cbz
  rw [hext]
  simp only [Bool.not_true, Bool.false_eq_true, if_false, Bool.not_false, if_true]
  rw [hinfo]
  rfl

/-- Witness for `C10_skip_existing_metadata`. -/
theorem C10_skip_existing_metadata_witness :
    update_local_cbz "m.cbz" true
      [("ComicInfo.xml", .readable [0]), ("chapter-2/a.jpg", .readable [1])]
      none false
    = ⟨.skipHasInfo,
        [("ComicInfo.xml", .readable [0]), ("chapter-2/a.jpg", .readable [1])],
        false, false⟩ :=
  C10_skip_existing_metadata "m.cbz"
    [("ComicInfo.xml", .readable [0]), ("chapter-2/a.jpg", .readable [1])]
    none (by decide) (by decide)

/-! ## C2: atomicity of in-place updates -/

/-- C2 counterexample: the sync path updates the archive in place by
calling `create_cbz_archive(..., output_filename=cbz_path)` (line 201),
which opens the original path directly for writing (line 68) — no
temporary location is used.  With a chapter directory whose second file
read raises, the build fails (result `False`) and the original archive
content (`[("orig", [7])]`) has been replaced by a partial archive: the
claim that on any build failure the original archive file's bytes are
unchanged is false. -/
theorem C2_counterexample_sync_clobbers :
    (create_cbz_archive "T" ["ch-1"]
      (fsGet [("ch-1", [("a.jpg", FData.file [1]), ("b.jpg", FData.badFile)])])
      (some [("orig", [7])])).1 = false
    ∧ (create_cbz_archive "T" ["ch-1"]
        (fsGet [("ch-1", [("a.jpg", FData.file [1]), ("b.jpg", FData.badFile)])])
        (some [("orig", [7])])).2 ≠ some [("orig", [7])] := by
  constructor
  · rfl
  · decide

/-- C2 (amended): `update_local_cbz` is atomic — the `.tmp` file never
survives, and the original archive content is replaced only when the
update reports success (every other outcome leaves it byte-identical).
The sync rebuild, by contrast, writes the new archive directly to the
original path (lines 68 and 201), so a failure during that build leaves
the original overwritten by a partial archive (concrete conjuncts). -/
theorem C2_update_atomic_sync_not (cbz_path : String) (isZip : Bool)
    (entries : List (String × EState)) (custom_title : Option String)
    (force : Bool) :
    ((update_local_cbz cbz_path isZip entries custom_title force).tmpFinal
        = false
      ∧ ((update_local_cbz cbz_path isZip entries custom_title force).outcome
            ≠ .success →
          (update_local_cbz cbz_path isZip entries custom_title force).cbz
            = entries))
    ∧ (create_cbz_archive "T" ["ch-1"]
        (fsGet [("ch-1", [("a.jpg", FData.file [1]), ("b.jpg", FData.badFile)])])
        (some [("orig", [7])])).1 = false
    ∧ (create_cbz_archive "T" ["ch-1"]
        (fsGet [("ch-1", [("a.jpg", FData.file [1]), ("b.jpg", FData.badFile)])])
        (some [("orig", [7])])).2 ≠ some [("orig", [7])] := by
  refine ⟨?_, by rfl, by decide⟩
  unfold update_local_cbz
  dsimp only
  split
  · exact ⟨rfl, fun _ => rfl⟩
  split
  · exact ⟨rfl, fun _ => rfl⟩
  split
  · exact ⟨rfl, fun _ => rfl⟩
  split
  · exact ⟨rfl, fun _ => rfl⟩
  split
  · exact ⟨rfl, fun _ => rfl⟩
  split
  · exact ⟨rfl, fun _ => rfl⟩
  split
  · exact ⟨rfl, fun _ => rfl⟩
  · exact ⟨rfl, fun h => absurd rfl h⟩

/-- Witness for `C2_update_atomic_sync_not`: a concrete non-success run
(the archive already holds metadata) leaves the archive content unchanged
and no temporary file behind. -/
theorem C2_update_atomic_sync_not_witness :
    (update_local_cbz "m.cbz" true [("ComicInfo.xml", .readable [0])]
        none false).cbz = [("ComicInfo.xml", EState.readable [0])]
    ∧ (update_local_cbz "m.cbz" true [("ComicInfo.xml", .readable [0])]
        none false).tmpFinal = false :=
  ⟨((C2_update_atomic_sync_not "m.cbz" true [("ComicInfo.xml", .readable [0])]
      none false).1.2) (by decide),
    (C2_update_atomic_sync_not "m.cbz" true [("ComicInfo.xml", .readable [0])]
      none false).1.1⟩

/-! ## C5: which chapters enter the fetched set -/

lemma dl_all_fail_filterMap (tags : List FetchOutcome)
    (h : ∀ t ∈ tags, t = FetchOutcome.fails) :
    ∀ k : Nat,
      (tags.enumFrom k).filterMap (fun p =>
        match p.2 with
        | FetchOutcome.ok b => some (pageName p.1, FData.file b)
        | _ => none) = [] := by
  induction tags with
  | nil => intro k; rfl
  | cons t ts ih =>
    intro k
    have ht : t = FetchOutcome.fails := h t (by simp)
    subst ht
    show (((k, FetchOutcome.fails) :: ts.enumFrom (k + 1)).filterMap _) = []
    rw [List.filterMap_cons]
    exact ih (fun x hx => h x (by simp [hx])) (k + 1)

/-- C5 counterexample: a chapter with a non-empty page list whose single
page fetch fails is NOT excluded — `download_chapter_images` still returns
the (empty) chapter directory (line 247), which the sync loop appends to
the fetched set (line 194, the path string is truthy).  The claim that
such a chapter is excluded from reconciliation is false. -/
theorem C5_counterexample_all_failed_chapter_included :
    download_chapter_images false [FetchOutcome.fails] = some []
    ∧ download_chapter_images false [FetchOutcome.fails] ≠ none := by
  constructor
  · rfl
  · decide

/-- C5 (amended): a chapter is excluded from the fetched set exactly when
the chapter page request itself raises or the page listing is empty
(lines 240 and 248); the number of successful page fetches plays no role —
in particular a non-empty page list all of whose fetches fail still yields
an (empty) chapter directory that enters the fetched set. -/
theorem C5_exclusion_rule (tags : List FetchOutcome) :
    download_chapter_images true tags = none
    ∧ (download_chapter_images false tags = none ↔ tags = [])
    ∧ (tags ≠ [] → (∀ t ∈ tags, t = FetchOutcome.fails) →
        download_chapter_images false tags = some []) := by
  refine ⟨rfl, ?_, ?_⟩
  · constructor
    · intro h
      by_cases he : tags.isEmpty
      · exact List.isEmpty_iff.mp he
      · simp [download_chapter_images, he] at h
    · intro h; subst h; rfl
  · intro hne hall
    have he : tags.isEmpty = false := by
      cases tags with
      | nil => exact absurd rfl hne
      | cons a l => rfl
    simp only [download_chapter_images, if_false, Bool.false_eq_true, he]
    rw [show tags.enum = tags.enumFrom 0 from rfl,
      dl_all_fail_filterMap tags hall 0]

/-- Witness for `C5_exclusion_rule` at the all-failing one-page chapter. -/
theorem C5_exclusion_rule_witness :
    download_chapter_images false [FetchOutcome.fails, FetchOutcome.fails]
      = some [] :=
  (C5_exclusion_rule [FetchOutcome.fails, FetchOutcome.fails]).2.2
    (by decide) (by decide)

/-! ## C3: page numbering gaps and re-derived positions -/

lemma bookmarksOf_go_starts (disk : String → Option Dir) :
    ∀ (l : List String) (acc : List (Nat × String) × Nat),
      (∀ f ∈ l, (disk f).isSome = true) →
      ((l.foldl
        (fun acc f =>
          match disk f with
          | none => acc
          | some d =>
            (acc.1 ++ [(acc.2, titleStr (String.mk (replace1 '_' [' ']
                (replace1 '-' [' '] (basenameStr f).toList))))],
              acc.2 + countFiles d))
        acc).1).map Prod.fst
      = acc.1.map Prod.fst
        ++ prefixSums acc.2 (l.map fun f => countFiles ((disk f).getD [])) := by
  intro l
  induction l with
  | nil => intro acc _; simp [prefixSums]
  | cons f t ih =>
    intro acc hall
    rw [List.foldl_cons]
    cases hdisk : disk f with
    | none => exact absurd (hdisk ▸ hall f (by simp)) (by simp)
    | some d =>
      simp only [hdisk]
      rw [ih _ (fun g hg => hall g (by simp [hg]))]
      simp [prefixSums, hdisk]

/-- C3 counterexample: a fetch of 5 listed pages where the second fails
yields a chapter directory whose files keep their ORIGINAL numbers —
`page_001, page_003, page_004, page_005` — with a gap; the pages are not
re-numbered `1..4` (no renaming exists anywhere in the source), so the
claim's re-numbering is false. -/
theorem C3_counterexample_no_renumbering :
    (download_chapter_images false
        [.ok [1], .fails, .ok [3], .ok [4], .ok [5]]).map listdirD
      = some ["page_001.jpg", "page_003.jpg", "page_004.jpg", "page_005.jpg"]
    ∧ (download_chapter_images false
        [.ok [1], .fails, .ok [3], .ok [4], .ok [5]]).map listdirD
      ≠ some ["page_001.jpg", "page_002.jpg", "page_003.jpg", "page_004.jpg"]
    := by
  constructor
  · rfl
  · decide

/-- C3 (amended): after a partially failed fetch the chapter directory
contains one file per successful page, still named by the ORIGINAL source
index (failed pages leave gaps in the filenames); contiguity holds not for
the filenames but for the positions re-derived during reconciliation:
`create_cbz_archive` assigns every chapter the start index equal to the
running sum of the previous chapters' file counts (so within the archive a
chapter's pages occupy the contiguous index range
`[start, start + count)`), and the total equals the sum of all counts. -/
theorem C3_gaps_kept_positions_rederived :
    (∀ tags : List FetchOutcome,
      tags ≠ [] →
      ∃ d, download_chapter_images false tags = some d
        ∧ listdirD d = (okIndexed tags).map (fun q => pageName q.1)
        ∧ countFiles d = (okIndexed tags).length)
    ∧ (∀ (disk : String → Option Dir) (l : List String),
        (∀ f ∈ l, (disk f).isSome = true) →
        ((bookmarksOf disk l).1.map Prod.fst
            = prefixSums 0 (l.map fun f => countFiles ((disk f).getD []))
          ∧ (bookmarksOf disk l).2
            = (l.map fun f => countFiles ((disk f).getD [])).sum)) := by
  constructor
  · intro tags hne
    have he : tags.isEmpty = false := by
      cases tags with
      | nil => exact absurd rfl hne
      | cons a l => rfl
    refine ⟨tags.enum.filterMap (fun p =>
        match p.2 with
        | FetchOutcome.ok b => some (pageName p.1, FData.file b)
        | _ => none),
      by simp [download_chapter_images, he], ?_, ?_⟩
    · unfold listdirD okIndexed
      rw [List.map_filterMap, List.map_filterMap]
      apply List.filterMap_congr
      intro p _
      cases p.2 <;> rfl
    · unfold countFiles okIndexed
      rw [List.countP_filterMap, List.length_filterMap_eq_countP]
      apply List.countP_congr
      intro p _
      cases p.2 <;> rfl
  · intro disk l hall
    constructor
    · have := bookmarksOf_go_starts disk l ([], 0) hall
      simpa [bookmarksOf] using this
    · rw [bookmarksOf_total]
      have hsame : ∀ f : String,
          (match disk f with
            | none => 0
            | some d => countFiles d) = countFiles ((disk f).getD []) := by
        intro f; cases disk f <;> rfl
      simp only [totalPages, hsame]

/-- Witness for `C3_gaps_kept_positions_rederived`: the 5-page fetch with
one failure, and a two-chapter disk whose start indices are the prefix
sums of the file counts. -/
theorem C3_gaps_kept_positions_rederived_witness :
    (∃ d, download_chapter_images false
          [.ok [1], .fails, .ok [3], .ok [4], .ok [5]] = some d
        ∧ listdirD d = (okIndexed
            [.ok [1], .fails, .ok [3], .ok [4], .ok [5]]).map
              (fun q => pageName q.1)
        ∧ countFiles d = (okIndexed
            [.ok [1], .fails, .ok [3], .ok [4], .ok [5]]).length)
    ∧ ((bookmarksOf
          (fsGet [("a", [("x.jpg", FData.file [1]), ("y.jpg", FData.file [2])]),
                  ("b", [("z.jpg", FData.file [3])])])
          ["a", "b"]).1.map Prod.fst
        = prefixSums 0 (["a", "b"].map fun f => countFiles
            (((fsGet [("a", [("x.jpg", FData.file [1]), ("y.jpg", FData.file [2])]),
                      ("b", [("z.jpg", FData.file [3])])]) f).getD []))) :=
  ⟨C3_gaps_kept_positions_rederived.1 _ (by decide),
    (C3_gaps_kept_positions_rederived.2
      (fsGet [("a", [("x.jpg", FData.file [1]), ("y.jpg", FData.file [2])]),
              ("b", [("z.jpg", FData.file [3])])])
      ["a", "b"] (by decide)).1⟩

/-! ## C1 infrastructure: paths, association updates, extraction -/

lemma strEta (s : String) : String.mk s.toList = s := rfl

lemma toList_slashcat (s n : String) :
    (s ++ "/" ++ n).toList = s.toList ++ '/' :: n.toList := by
  show (s ++ "/" ++ n).data = s.data ++ '/' :: n.data
  simp [String.data_append]

lemma mk_slashcat (a bb : List Char) :
    String.mk (a ++ '/' :: bb) = String.mk a ++ "/" ++ String.mk bb := by
  rw [← strEta (String.mk a ++ "/" ++ String.mk bb), toList_slashcat]
  rfl

lemma revSegC_no (c : Char) (l : List Char) (h : c ∉ l) : revSegC c l = l := by
  induction l with
  | nil => rfl
  | cons x t ih =>
    have hx : x ≠ c := fun he => h (by simp [he])
    simp only [revSegC, if_neg hx]
    rw [ih (fun he => h (by simp [he]))]

lemma revSegC_stop (c : Char) (m r : List Char) (h : c ∉ m) :
    revSegC c (m ++ c :: r) = m := by
  induction m with
  | nil => simp [revSegC]
  | cons x t ih =>
    have hx : x ≠ c := fun he => h (by simp [he])
    simp only [List.cons_append, revSegC, if_neg hx]
    show x :: revSegC c (t ++ c :: r) = x :: t
    rw [ih (fun he => h (by simp [he]))]

lemma revRestC_stop (c : Char) (m r : List Char) (h : c ∉ m) :
    revRestC c (m ++ c :: r) = some r := by
  induction m with
  | nil => simp [revRestC]
  | cons x t ih =>
    have hx : x ≠ c := fun he => h (by simp [he])
    simp only [List.cons_append, revRestC, if_neg hx]
    exact ih (fun he => h (by simp [he]))

lemma revRestC_decomp (c : Char) :
    ∀ (l r : List Char), revRestC c l = some r → l = revSegC c l ++ c :: r := by
  intro l
  induction l with
  | nil => intro r h; exact absurd h (by simp [revRestC])
  | cons x t ih =>
    intro r h
    by_cases hx : x = c
    · subst hx
      have ht : t = r := by simpa [revRestC] using h
      subst ht
      simp [revSegC]
    · simp only [revRestC, if_neg hx] at h
      have := ih r h
      simp only [revSegC, if_neg hx]
      rw [List.cons_append, ← this]

lemma basenameStr_noSlash {s : String} (h : '/' ∉ s.toList) :
    basenameStr s = s := by
  unfold basenameStr lastSegC
  rw [revSegC_no '/' s.toList.reverse (by simpa using h), List.reverse_reverse]
  exact strEta s

lemma basename_slashcat (s n : String) (hn : '/' ∉ n.toList) :
    basenameStr (s ++ "/" ++ n) = n := by
  unfold basenameStr lastSegC
  rw [toList_slashcat]
  rw [show (s.toList ++ '/' :: n.toList).reverse
      = n.toList.reverse ++ '/' :: s.toList.reverse by simp]
  rw [revSegC_stop '/' _ _ (by simpa using hn), List.reverse_reverse]
  exact strEta n

lemma dirname_slashcat (s n : String) (hn : '/' ∉ n.toList) :
    dirnameStr (s ++ "/" ++ n) = s := by
  unfold dirnameStr dirnameL preLastC
  rw [toList_slashcat]
  rw [show (s.toList ++ '/' :: n.toList).reverse
      = n.toList.reverse ++ '/' :: s.toList.reverse by simp]
  rw [revRestC_stop '/' _ _ (by simpa using hn)]
  simp only [List.reverse_reverse, Option.getD_some]
  exact strEta s

lemma dirname_recombine (m : String) (h : dirnameStr m ≠ "") :
    m = dirnameStr m ++ "/" ++ basenameStr m := by
  cases hrev : revRestC '/' m.toList.reverse with
  | none =>
    exfalso
    apply h
    unfold dirnameStr dirnameL preLastC
    rw [hrev]
    rfl
  | some r =>
    have hdir : dirnameStr m = String.mk r.reverse := by
      unfold dirnameStr dirnameL preLastC
      rw [hrev]
      rfl
    have hm : m.toList
        = r.reverse ++ '/' :: (revSegC '/' m.toList.reverse).reverse := by
      have hdec := revRestC_decomp '/' m.toList.reverse r hrev
      have h2 := congrArg List.reverse hdec
      simpa using h2
    rw [hdir,
      show basenameStr m
        = String.mk ((revSegC '/' m.toList.reverse).reverse) from rfl,
      ← mk_slashcat, ← hm]
    exact (strEta m).symm

lemma dirGet_set_same (d : Dir) (n : String) (b : Bytes) :
    dirGet (dirSetFile d n b) n = some (.file b) := by
  induction d with
  | nil => simp [dirSetFile, dirGet]
  | cons e t ih =>
    by_cases h : e.1 = n
    · simp [dirSetFile, h, dirGet]
    · cases e with
      | mk m x =>
        simp only [dirSetFile, if_neg h, dirGet]
        exact ih

lemma dirGet_set_other (d : Dir) (m n : String) (b : Bytes) (h : m ≠ n) :
    dirGet (dirSetFile d m b) n = dirGet d n := by
  induction d with
  | nil => simp [dirSetFile, dirGet, h]
  | cons e t ih =>
    by_cases he : e.1 = m
    · cases e with
      | mk em x =>
        simp only at he
        subst he
        simp only [dirSetFile, if_pos rfl, dirGet]
        rw [if_neg h, if_neg h]
    · cases e with
      | mk em x =>
        simp only at he
        simp only [dirSetFile, if_neg he, dirGet]
        by_cases hen : em = n
        · rw [if_pos hen, if_pos hen]
        · rw [if_neg hen, if_neg hen]
          exact ih

lemma fsGet_set_same (fs : FS) (dn n : String) (b : Bytes) :
    fsGet (fsSetFile fs dn n b) dn
      = some (dirSetFile ((fsGet fs dn).getD []) n b) := by
  induction fs with
  | nil => simp [fsSetFile, fsGet, dirSetFile]
  | cons e t ih =>
    by_cases h : e.1 = dn
    · cases e with
      | mk m d =>
        simp only at h
        subst h
        simp [fsSetFile, fsGet]
    · cases e with
      | mk m d =>
        simp only at h
        simp only [fsSetFile, if_neg h, fsGet]
        exact ih

lemma fsGet_set_other (fs : FS) (dn s n : String) (b : Bytes) (h : dn ≠ s) :
    fsGet (fsSetFile fs dn n b) s = fsGet fs s := by
  induction fs with
  | nil => simp [fsSetFile, fsGet, h]
  | cons e t ih =>
    by_cases he : e.1 = dn
    · cases e with
      | mk m d =>
        simp only at he
        subst he
        simp only [fsSetFile, if_pos rfl, fsGet]
        rw [if_neg h]
        rw [if_neg h]
    · cases e with
      | mk m d =>
        simp only at he
        simp only [fsSetFile, if_neg he, fsGet]
        by_cases hms : m = s
        · rw [if_pos hms, if_pos hms]
        · rw [if_neg hms, if_neg hms]
          exact ih

lemma fsGetFile_set_same (fs : FS) (s n : String) (b : Bytes) :
    fsGetFile (fsSetFile fs s n b) s n = some (.file b) := by
  unfold fsGetFile
  rw [fsGet_set_same]
  simp [dirGet_set_same]

/-- A pinned file survives extraction of entries with other names:
each extracted entry either lands in another directory, or under another
filename, or would have to carry the very same entry name. -/
lemma extract_preserve (s n : String) (b : Bytes) :
    ∀ (rest : ArchiveContent) (fs : FS),
      (s ++ "/" ++ n) ∉ rest.map Prod.fst →
      fsGetFile fs s n = some (.file b) →
      fsGetFile (extractInto fs rest) s n = some (.file b) := by
  intro rest
  induction rest with
  | nil => intro fs _ hpin; exact hpin
  | cons e t ih =>
    intro fs hmem hpin
    have hmem2 : (s ++ "/" ++ n) ∉ t.map Prod.fst :=
      fun hx => hmem (by simp [hx])
    have hne : e.1 ≠ s ++ "/" ++ n := fun hx => hmem (by simp [hx])
    show fsGetFile (extractInto
      (if dirnameStr e.1 = "" then fs
        else fsSetFile fs (dirnameStr e.1) (basenameStr e.1) e.2) t) s n = _
    by_cases hdn : dirnameStr e.1 = ""
    · rw [if_pos hdn]
      exact ih fs hmem2 hpin
    · rw [if_neg hdn]
      apply ih _ hmem2
      by_cases hds : dirnameStr e.1 = s
      · by_cases hbn : basenameStr e.1 = n
        · exfalso
          apply hne
          rw [dirname_recombine e.1 hdn, hds, hbn]
        · obtain ⟨d, hd⟩ : ∃ d, fsGet fs s = some d := by
            cases hq : fsGet fs s with
            | none => rw [fsGetFile, hq] at hpin; exact absurd hpin (by simp)
            | some d => exact ⟨d, rfl⟩
          rw [fsGetFile, hds, fsGet_set_same, hd]
          simp only [Option.getD_some, Option.some_bind]
          rw [dirGet_set_other _ _ _ _ hbn]
          rw [fsGetFile, hd] at hpin
          simpa using hpin
      · rw [fsGetFile, fsGet_set_other _ _ _ _ _ hds]
        exact hpin

/-- After extracting an archive with pairwise distinct entry names over any
scratch tree, an entry `s/n` of the archive is present, byte-for-byte, as
file `n` of directory `s`. -/
lemma extract_pins (s n : String) (b : Bytes)
    (hs2 : s ≠ "") (hn1 : '/' ∉ n.toList) :
    ∀ (entries : ArchiveContent) (fs : FS),
      (s ++ "/" ++ n, b) ∈ entries →
      (entries.map Prod.fst).Nodup →
      fsGetFile (extractInto fs entries) s n = some (.file b) := by
  intro entries
  induction entries with
  | nil => intro fs h _; exact absurd h (by simp)
  | cons e t ih =>
    intro fs hmem hnodup
    rw [List.map_cons, List.nodup_cons] at hnodup
    rcases List.mem_cons.mp hmem with rfl | hmem2
    · show fsGetFile (extractInto
        (if dirnameStr (s ++ "/" ++ n) = "" then fs
          else fsSetFile fs (dirnameStr (s ++ "/" ++ n))
            (basenameStr (s ++ "/" ++ n)) b) t) s n = _
      rw [dirname_slashcat s n hn1, basename_slashcat s n hn1, if_neg hs2]
      exact extract_preserve s n b t _ hnodup.1 (fsGetFile_set_same fs s n b)
    · show fsGetFile (extractInto
        (if dirnameStr e.1 = "" then fs
          else fsSetFile fs (dirnameStr e.1) (basenameStr e.1) e.2) t) s n = _
      exact ih _ hmem2 hnodup.2

lemma dirGet_mem {d : Dir} {n : String} {x : FData} (h : dirGet d n = some x) :
    n ∈ listdirD d := by
  induction d with
  | nil => exact absurd h (by simp [dirGet])
  | cons e t ih =>
    by_cases he : e.1 = n
    · simp [listdirD, he]
    · rw [dirGet, if_neg he] at h
      simp [listdirD] at ih ⊢
      exact Or.inr (ih h)

lemma mem_sortByKey {key : String → Nat} {f : String} {l : List String}
    (h : f ∈ l) : f ∈ sortByKey key l :=
  (sortByKey_perm key l).mem_iff.mpr h

lemma writeDirFiles_mono (base : String) (d : Dir) :
    ∀ (names : List String) (acc res : ArchiveContent) (x : String × Bytes),
      x ∈ acc → writeDirFiles base d names acc = .done res → x ∈ res := by
  intro names
  induction names with
  | nil =>
    intro acc res x hx h
    cases h
    exact hx
  | cons nm t ih =>
    intro acc res x hx h
    rw [writeDirFiles] at h
    cases hg : dirGet d nm with
    | none =>
      rw [hg] at h
      exact ih acc res x hx h
    | some fd =>
      rw [hg] at h
      cases fd with
      | file b => exact ih _ res x (by simp [hx]) h
      | badFile => cases h
      | subdir => exact ih acc res x hx h

lemma writeDirFiles_emits (base : String) (d : Dir) (n : String) (b : Bytes)
    (hget : dirGet d n = some (.file b)) :
    ∀ (names : List String) (acc res : ArchiveContent),
      n ∈ names → writeDirFiles base d names acc = .done res →
      (base ++ "/" ++ n, b) ∈ res := by
  intro names
  induction names with
  | nil => intro acc res h _; exact absurd h (by simp)
  | cons nm t ih =>
    intro acc res hmem h
    rw [writeDirFiles] at h
    rcases List.mem_cons.mp hmem with rfl | hmem2
    · rw [hget] at h
      exact writeDirFiles_mono base d t _ res _ (by simp) h
    · cases hg : dirGet d nm with
      | none =>
        rw [hg] at h
        exact ih acc res hmem2 h
      | some fd =>
        rw [hg] at h
        cases fd with
        | file b2 => exact ih _ res hmem2 h
        | badFile => cases h
        | subdir => exact ih acc res hmem2 h

lemma writeAll_mono (disk : String → Option Dir) :
    ∀ (l : List String) (acc res : ArchiveContent) (x : String × Bytes),
      x ∈ acc → writeAll disk l acc = .done res → x ∈ res := by
  intro l
  induction l with
  | nil =>
    intro acc res x hx h
    cases h
    exact hx
  | cons f t ih =>
    intro acc res x hx h
    rw [writeAll] at h
    cases hd : disk f with
    | none => simp only [hd] at h; exact WRes.noConfusion h
    | some d =>
      simp only [hd] at h
      cases hw : writeDirFiles (basenameStr f) d (sortStrs (listdirD d)) acc with
      | done acc2 =>
        simp only [hw] at h
        exact ih acc2 res x (writeDirFiles_mono _ d _ acc acc2 x hx hw) h
      | failed acc2 => simp only [hw] at h; exact WRes.noConfusion h

lemma writeAll_emits (disk : String → Option Dir) (f : String) (d : Dir)
    (n : String) (b : Bytes) (hd : disk f = some d)
    (hget : dirGet d n = some (.file b)) :
    ∀ (l : List String) (acc res : ArchiveContent),
      f ∈ l → writeAll disk l acc = .done res →
      (basenameStr f ++ "/" ++ n, b) ∈ res := by
  intro l
  induction l with
  | nil => intro acc res h _; exact absurd h (by simp)
  | cons g t ih =>
    intro acc res hmem h
    rw [writeAll] at h
    rcases List.mem_cons.mp hmem with rfl | hmem2
    · simp only [hd] at h
      cases hw : writeDirFiles (basenameStr f) d (sortStrs (listdirD d)) acc with
      | done acc2 =>
        simp only [hw] at h
        have hin : (basenameStr f ++ "/" ++ n, b) ∈ acc2 :=
          writeDirFiles_emits (basenameStr f) d n b hget _ acc acc2
            (mem_sortStrs (dirGet_mem hget)) hw
        exact writeAll_mono disk t acc2 res _ hin h
      | failed acc2 => simp only [hw] at h; exact WRes.noConfusion h
    · cases hdg : disk g with
      | none => simp only [hdg] at h; exact WRes.noConfusion h
      | some dg =>
        simp only [hdg] at h
        cases hw : writeDirFiles (basenameStr g) dg (sortStrs (listdirD dg)) acc with
        | done acc2 => simp only [hw] at h; exact ih acc2 res hmem2 h
        | failed acc2 => simp only [hw] at h; exact WRes.noConfusion h

/-- If `create_cbz_archive` reports success, every readable file of every
listed chapter folder is present in the written archive under
`basename(folder)/filename`. -/
lemma create_done_mem (title : String) (folders : List String)
    (disk : String → Option Dir) (prev : Option ArchiveContent)
    (f : String) (d : Dir) (n : String) (b : Bytes)
    (hf : f ∈ folders) (hd : disk f = some d)
    (hget : dirGet d n = some (.file b))
    (hok : (create_cbz_archive title folders disk prev).1 = true) :
    ∃ out, (create_cbz_archive title folders disk prev).2 = some out
      ∧ (basenameStr f ++ "/" ++ n, b) ∈ out := by
  unfold create_cbz_archive at hok ⊢
  dsimp only at hok ⊢
  by_cases hz : (bookmarksOf disk (sortByKey chapterKey folders)).2 = 0
  · rw [if_pos hz] at hok
    exact absurd hok (by simp)
  · rw [if_neg hz] at hok ⊢
    cases hw : writeAll disk (sortByKey chapterKey folders)
        [("ComicInfo.xml", strBytes (generate_comic_info_xml title
          (bookmarksOf disk (sortByKey chapterKey folders)).1
          (bookmarksOf disk (sortByKey chapterKey folders)).2))] with
    | done es =>
      simp only [hw]
      exact ⟨es, rfl,
        writeAll_emits disk f d n b hd hget _ _ _ (mem_sortByKey hf) hw⟩
    | failed es =>
      simp only [hw] at hok
      exact absurd hok (by simp)

/-! ## C1: merge precedence for a slug present on both sides -/

/-- C1 counterexample: slug `chapter-5` is present both in the existing
archive (page `old.jpg`) and in the freshly fetched set (page
`page_001.jpg`).  Because the existing archive is extracted over the
scratch directory AFTER the downloads were written into it (lines 190 and
196-197 put both under `temp_dir/chapter-5`), the reconciled archive still
contains the existing archive's page `chapter-5/old.jpg` — and the shared
directory is even enumerated twice (once as an existing folder, once as a
downloaded path, line 199), duplicating the chapter's entries.  The claim
that only the freshly fetched pages appear for the slug is false. -/
theorem C1_counterexample_existing_page_survives :
    (("chapter-5/old.jpg", ([1] : Bytes)) ∈
      ((sync_cbz_reconcile "My Manga.cbz"
        [("ComicInfo.xml", [9]), ("chapter-5/old.jpg", [1])]
        [("chapter-5", [("page_001.jpg", FData.file [2])])]).2.getD []))
    ∧ (((sync_cbz_reconcile "My Manga.cbz"
        [("ComicInfo.xml", [9]), ("chapter-5/old.jpg", [1])]
        [("chapter-5", [("page_001.jpg", FData.file [2])])]).2.getD []).map
          Prod.fst
      = ["ComicInfo.xml", "chapter-5/old.jpg", "chapter-5/page_001.jpg",
         "chapter-5/old.jpg", "chapter-5/page_001.jpg"]) := by
  constructor
  · decide
  · rfl

/-- C1 (amended): when the same chapter slug is present both in the
existing archive and in the freshly fetched set, full replacement does NOT
occur: every page of the EXISTING archive version of that slug (name and
bytes) is contained in the reconciled archive, because the extraction of
the existing archive (line 197) overwrites the previously downloaded files
in the shared scratch directory `temp_dir/slug`.  (A freshly fetched page
survives only under a filename the existing chapter does not use.)
Hypotheses: the slug and filename are non-empty and slash-free, the
existing archive's entry names are distinct, and the rebuild succeeded. -/
theorem C1_existing_pages_survive (cbz_path : String)
    (zipEntries : ArchiveContent) (downloaded : FS) (s n : String) (b : Bytes)
    (hs1 : '/' ∉ s.toList) (hs2 : s ≠ "") (hn1 : '/' ∉ n.toList)
    (hmem : (s ++ "/" ++ n, b) ∈ zipEntries)
    (hdl : s ∈ fsDirs downloaded)
    (hnodup : (zipEntries.map Prod.fst).Nodup)
    (hok : (sync_cbz_reconcile cbz_path zipEntries downloaded).1 = true) :
    ∃ out, (sync_cbz_reconcile cbz_path zipEntries downloaded).2 = some out
      ∧ (s ++ "/" ++ n, b) ∈ out := by
  have hpin : fsGetFile (extractInto downloaded zipEntries) s n
      = some (.file b) :=
    extract_pins s n b hs2 hn1 zipEntries downloaded hmem hnodup
  obtain ⟨d, hdq, hget⟩ : ∃ d,
      fsGet (extractInto downloaded zipEntries) s = some d
        ∧ dirGet d n = some (.file b) := by
    cases hq : fsGet (extractInto downloaded zipEntries) s with
    | none => rw [fsGetFile, hq] at hpin; exact absurd hpin (by simp)
    | some d =>
      refine ⟨d, rfl, ?_⟩
      rw [fsGetFile, hq] at hpin
      simpa using hpin
  unfold sync_cbz_reconcile at hok ⊢
  dsimp only at hok ⊢
  have hf : s ∈ fsDirs (extractInto downloaded zipEntries) ++ fsDirs downloaded :=
    List.mem_append.mpr (Or.inr hdl)
  have := create_done_mem (stemStr (basenameStr cbz_path))
    (fsDirs (extractInto downloaded zipEntries) ++ fsDirs downloaded)
    (fsGet (extractInto downloaded zipEntries)) (some zipEntries)
    s d n b hf hdq hget hok
  rwa [basenameStr_noSlash hs1] at this

/-- Witness for `C1_existing_pages_survive` on the concrete shared slug. -/
theorem C1_existing_pages_survive_witness :
    ∃ out, (sync_cbz_reconcile "My Manga.cbz"
        [("ComicInfo.xml", [9]), ("chapter-5/old.jpg", [1])]
        [("chapter-5", [("page_001.jpg", FData.file [2])])]).2 = some out
      ∧ ("chapter-5" ++ "/" ++ "old.jpg", ([1] : Bytes)) ∈ out :=
  C1_existing_pages_survive "My Manga.cbz"
    [("ComicInfo.xml", [9]), ("chapter-5/old.jpg", [1])]
    [("chapter-5", [("page_001.jpg", FData.file [2])])]
    "chapter-5" "old.jpg" [1]
    (by decide) (by decide) (by decide) (by decide) (by decide) (by decide)
    (by decide)
